import Mathlib

/-!
# Verification of the sochet chat server against its specification

Shallow embedding of the server-side logic of the sochet repository:
the authentication path and accept loop of `server/server.py`, the
fan-out / mute / rate-limit logic of `server/core/broadcaster.py`, and
the admin command handlers of `server/handler/admin_commands.py`.

Python strings are modelled as Lean `String`; Python's `str.split`,
`str.strip`, `str.upper`, `str.lower` and `str.isdigit` are re-implemented
structurally on `List Char` (restricted to ASCII, which is all the server
ever compares against).  Wall-clock times are modelled as rationals.
Exceptions are modelled with `Except` over an explicit exception datatype.
-/

namespace Sochet

/-- The Python exception classes that matter on the accept path:
`socket.timeout`, `OSError`, `KeyboardInterrupt`, and `ValueError`
(the exception raised by tuple unpacking of a wrong-sized list). -/
inductive PyExn where
  | timeoutErr
  | osErr
  | keyboardInterrupt
  | valueErr
deriving DecidableEq, Repr

/-- Split a character list on the two-character separator `"::"`,
greedily left-to-right on non-overlapping occurrences — the semantics of
Python's `s.split("::")`. -/
def splitCols : List Char → List (List Char)
  | [] => [[]]
  | ':' :: ':' :: rest => [] :: splitCols rest
  | c :: rest =>
    match splitCols rest with
    | [] => [[c]]
    | p :: ps => (c :: p) :: ps

/-- Python `s.split("::")` on a Lean `String`. -/
def pySplitOnColons (s : String) : List String :=
  (splitCols s.data).map String.mk

/-- Association lookup in the user database: maps a username to its
stored password digest (`self.user_db.get(username)["password"]`). -/
def lookupUser (db : List (String × String)) (u : String) : Option String :=
  (db.find? (fun p => p.1 == u)).map Prod.snd

/-- Embedded from `Server.verify_user` (server/server.py:153-171):

```python
if "::" not in credentials:
    return None, "AUTH_FAILED"
username, password = credentials.split("::")
user_data = self.user_db.get(username)
if not user_data:
    return None, "AUTH_FAILED"
hashed_password = user_data["password"]
if verify_password(password, hashed_password):
    return username, None
return None, "AUTH_FAILED"
```

`"::" in credentials` holds exactly when the split yields more than one
piece, so the one-piece branch is the early `AUTH_FAILED` return.  A split
with three or more pieces makes the two-variable tuple unpacking raise
`ValueError`.  The bcrypt check `verify_password` is opaque and passed in
as `checkpw`. -/
def verifyUser (db : List (String × String)) (checkpw : String → String → Bool)
    (credentials : String) : Except PyExn (Option String × Option String) :=
  match pySplitOnColons credentials with
  | [_] => .ok (none, some "AUTH_FAILED")
  | [username, password] =>
    match lookupUser db username with
    | none => .ok (none, some "AUTH_FAILED")
    | some hashed =>
      if checkpw password hashed then .ok (some username, none)
      else .ok (none, some "AUTH_FAILED")
  | _ => .error .valueErr

/-- The exceptions caught by the `try/except` in
`Server.accept_and_handle_connection` (server/server.py:65-91):
only `socket.timeout` and `OSError`. -/
def handledByAcceptHandler : PyExn → Bool
  | .timeoutErr => true
  | .osErr => true
  | _ => false

/-- The exceptions caught around the accept loop in
`Server.accept_connection` (server/server.py:53-63): only
`KeyboardInterrupt`. -/
def handledByAcceptLoop : PyExn → Bool
  | .keyboardInterrupt => true
  | _ => false

/-- Embedded from `Server.accept_and_handle_connection`
(server/server.py:65-91).  Input: the peer's IP and the first frame
received on the socket.  Output: `(admitted username?, frames sent to
this client)`, or an uncaught exception.

* a non-whitelisted IP is rejected and closed with nothing sent;
* `verify_user` failure (`error or not username`) closes the socket with
  nothing sent to the client;
* success sends the plain string `"AUTH_SUCCESS"` and admits the user;
* an exception from `verify_user` other than `timeout`/`OSError`
  propagates. -/
def acceptAndHandle (whitelist : List String) (db : List (String × String))
    (checkpw : String → String → Bool) (ip : String) (credentials : String) :
    Except PyExn (Option String × List String) :=
  if ip ∈ whitelist then
    match verifyUser db checkpw credentials with
    | .error e => if handledByAcceptHandler e then .ok (none, []) else .error e
    | .ok r =>
      if r.2.isSome ∨ r.1.isNone then .ok (none, [])
      else .ok (r.1, ["AUTH_SUCCESS"])
  else .ok (none, [])

/-- Embedded from `Server.accept_connection` (server/server.py:53-63):
the accept loop processes incoming connections one after the other and
catches only `KeyboardInterrupt`.  Output: the usernames admitted before
the loop ended, and the uncaught exception that escaped the loop, if
any.  Once an exception escapes, the remaining connection attempts are
never accepted. -/
def acceptLoop (whitelist : List String) (db : List (String × String))
    (checkpw : String → String → Bool) :
    List (String × String) → List String × Option PyExn
  | [] => ([], none)
  | (ip, cred) :: rest =>
    match acceptAndHandle whitelist db checkpw ip cred with
    | .error e =>
      if handledByAcceptLoop e then ([], none) else ([], some e)
    | .ok (some u, _) =>
      let r := acceptLoop whitelist db checkpw rest
      (u :: r.1, r.2)
    | .ok (none, _) => acceptLoop whitelist db checkpw rest

/-- The credential frame the repository's own client sends
(client/client.py:39-44): `json.dumps({"username": ..., "password": ...})`
for the sample admin account. -/
def clientCredJson : String :=
  "\x7b\"username\": \"admin\", \"password\": \"admin\"\x7d"

/-! ## Broadcast (server/core/broadcaster.py and legacy server/server.py) -/

/-- One observable effect of `Broadcaster.broadcast_message`: a framed
send to one client socket, or an append to the in-memory message log
(`self.server.db_mesg.append(payload)`).  Sockets are modelled as `Nat`;
a payload is its `(flag, sender, message)` triple (the server-stamped
timestamp is opaque). -/
inductive BCAction where
  | send (client : Nat) (flag sender message : String)
  | logAppend (flag sender message : String)
deriving DecidableEq, Repr

/-- Embedded from `Broadcaster.broadcast_message`
(server/core/broadcaster.py:28-44), as the ordered list of its effects:

```python
for client in list(self.server.clients.keys()):
    if client != skip_socket:
        self.send_msg_to(client, flag, message, sender)
if not flag and sender:
    payload = build_response(flag, message, sender)
    self.server.db_mesg.append(payload)
```

Python truthiness: `not flag` is `flag == ""`, `sender` is `sender ≠ ""`.
The comparison `client != skip_socket` with `skip_socket = None` is
always true. -/
def broadcastMessage (clients : List Nat) (skipSocket : Option Nat)
    (flag message sender : String) : List BCAction :=
  (clients.filter (fun c => decide (some c ≠ skipSocket))).map
      (fun c => BCAction.send c flag sender message)
    ++ (if flag = "" ∧ sender ≠ "" then [BCAction.logAppend flag sender message] else [])

/-- The sockets that receive a send in an effect trace. -/
def sendTargets (trace : List BCAction) : List Nat :=
  trace.filterMap (fun a => match a with
    | .send c _ _ _ => some c
    | .logAppend _ _ _ => none)

/-- Embedded from the legacy `Server.broadcast` (server/server.py:257-266):

```python
def broadcast(self, message: str, exclude_socket=None):
    with self.lock:
        for client_socket in list(self.clients.keys()):
            self.handle_message(client_socket, message)
```

The loop iterates over every client socket; the `exclude_socket`
parameter is never consulted.  Result: the list of `(socket, message)`
sends performed. -/
def legacyBroadcast (clients : List (Nat × String)) (message : String)
    (excludeSocket : Option Nat) : List (Nat × String) :=
  clients.map (fun c => (c.1, message))

/-! ## Session frame processing (legacy server/server.py:278-321) -/

/-- Python `s.strip()` (ASCII whitespace). -/
def pyStrip (s : String) : String :=
  String.mk (((s.data.dropWhile Char.isWhitespace).reverse.dropWhile
      Char.isWhitespace).reverse)

/-- Python `s.upper()` (ASCII). -/
def pyUpper (s : String) : String :=
  String.mk (s.data.map Char.toUpper)

/-- Rejoin pieces with `"::"` — the tail piece produced by
`split("::", 2)`. -/
def joinColons (parts : List String) : String :=
  String.mk (List.intercalate [':', ':'] (parts.map String.data))

/-- Python `data.split("::", 2)`: at most three pieces, the third one
keeping any further separators. -/
def pySplitMax2 (data : String) : List String :=
  match pySplitOnColons data with
  | p1 :: p2 :: rest =>
    if rest.isEmpty then [p1, p2] else [p1, p2, joinColons rest]
  | l => l

/-- Embedded from `parse_message` (server/util.py:34-42):

```python
if "::" in data:
    return data.split("::", 2)
return fallback_user, "January 1st, 1988 00:00:00", data
```

The result is the list of pieces (two or three when the separator is
present). -/
def parseMessageParts (data username : String) : List String :=
  if 2 ≤ (pySplitOnColons data).length then pySplitMax2 data
  else [username, "January 1st, 1988 00:00:00", data]

/-- What a `recv` on the client socket yields inside
`Server.process_client_message`: decoded data, or one of the exceptions
the handler distinguishes. -/
inductive RecvResult where
  | recvData (s : String)
  | timeoutR
  | connReset
  | brokenPipe
  | otherExn
deriving DecidableEq, Repr

/-- Embedded from `Server.process_client_message`
(server/server.py:278-321).  Result `(keepLooping, removedClient)`:
`keepLooping` is the function's return value (`False` means the session
loop exits), `removedClient` records whether `remove_client` was called.

* stripped-empty data (in particular a zero-length read from a closed
  peer) returns `True` — "empty messages are ignored" — and removes
  nothing;
* a `CLIENT_QUIT` message removes the client and returns `False`;
* any other message is broadcast (with no exclusion) and appended to
  `msg_db`, returning `True`;
* a two-piece `parse_message` result makes the three-variable unpacking
  raise `ValueError`, swallowed by the blanket `except Exception`,
  returning `False` without removal;
* `ConnectionResetError` / `BrokenPipeError` remove the client and
  return `False`; `socket.timeout` returns `True`. -/
def processClientMessage (recv : RecvResult) (username : String) : Bool × Bool :=
  match recv with
  | .recvData raw =>
    let data := pyStrip raw
    if data = "" then (true, false)
    else
      match parseMessageParts data username with
      | [_user, _ts, msg] =>
        if pyUpper msg = "CLIENT_QUIT" then (false, true)
        else (true, false)
      | _ => (false, false)
  | .timeoutR => (true, false)
  | .connReset => (false, true)
  | .brokenPipe => (false, true)
  | .otherExn => (false, false)

/-! ## Client registry admission (legacy server/server.py:194-219) -/

/-- Python dict assignment `d[k] = v` for a socket-keyed dict. -/
def dictSet (d : List (Nat × String)) (k : Nat) (v : String) : List (Nat × String) :=
  if d.any (fun p => p.1 == k) then
    d.map (fun p => if p.1 == k then (k, v) else p)
  else d ++ [(k, v)]

/-- Embedded from `Server.handle_client` (server/server.py:194-219): the
admission step is the unconditional `self.clients[client_socket] =
username` — there is no check whether `username` is already bound to a
live connection. -/
def admitClient (clients : List (Nat × String)) (sock : Nat) (username : String) :
    List (Nat × String) :=
  dictSet clients sock username

/-! ## Mute policy (server/core/broadcaster.py:65-91) -/

/-- One entry of `self.server.muted_users`: `{"until": ..., "warned": ...}`. -/
structure MuteInfo where
  muteUntil : ℚ
  warned : Bool
deriving DecidableEq, Repr

/-- The one-shot warning text
`f"You are muted for {remaining} more second(s)."` with
`remaining = int(unmute_time - now)` (truncation = floor, since the
difference is positive when the message is sent). -/
def muteWarning (remaining : ℤ) : String :=
  "You are muted for " ++ toString remaining ++ " more second(s)."

/-- Embedded from `Broadcaster.check_mute`
(server/core/broadcaster.py:65-91), restricted to the checked user's own
entry of the mute table.  Result: `(allowed, new entry, ADMIN_MSG frames
sent)`.

```python
mute_info = self.server.muted_users.get(username)
if not mute_info:
    return True
unmute_time = mute_info["until"]
if now < unmute_time:
    if not mute_info.get("warned", False):
        remaining = int(unmute_time - now)
        self.send_msg_to(client, flag=ADMIN_MSG, message=...)
        mute_info["warned"] = True
    return False
del self.server.muted_users[username]
return True
``` -/
def checkMute (entry : Option MuteInfo) (now : ℚ) :
    Bool × Option MuteInfo × List String :=
  match entry with
  | none => (true, none, [])
  | some info =>
    if now < info.muteUntil then
      if info.warned then (false, some info, [])
      else (false, some { info with warned := true },
            [muteWarning ⌊info.muteUntil - now⌋])
    else (true, none, [])

/-! ## Mute duration parsing and installation
(server/handler/admin_commands.py:172-227) -/

/-- `unit_multipliers = {"s": 1, "m": 60, "h": 3600}`. -/
def unitMult (c : Char) : ℕ :=
  if c = 's' then 1 else if c = 'm' then 60 else if c = 'h' then 3600 else 0

/-- Numeric value of a digit string (`int(amount)`). -/
def digitsToNat (cs : List Char) : ℕ :=
  cs.foldl (fun n c => 10 * n + (c.toNat - '0'.toNat)) 0

/-- Embedded from the duration validation of `Commands.admin_action_mute`:

```python
duration_str = parts[2].lower()
unit = duration_str[-1]
amount = duration_str[:-1]
if unit not in unit_multipliers or not amount.isdigit():
    ... "Invalid duration. Use 10s, 2m, or 1h." ...
seconds = int(amount) * unit_multipliers[unit]
```

`str.isdigit` is modelled for ASCII: non-empty and all characters in
`0-9`.  `split()` never produces an empty token, so the `none` branch on
an empty string is unreachable. -/
def parseDuration (tok : String) : Option ℕ :=
  let d := tok.data.map Char.toLower
  match d.getLast? with
  | none => none
  | some unit =>
    let amount := d.dropLast
    if (unit = 's' ∨ unit = 'm' ∨ unit = 'h') ∧ amount ≠ [] ∧ amount.all Char.isDigit
    then some (digitsToNat amount * unitMult unit)
    else none

/-- The claim's duration pattern `^[0-9]+[smh]$`: one or more ASCII
digits followed by exactly one of the lowercase letters `s`, `m`, `h`.
Stated from the specification's words, for comparison with
`parseDuration`. -/
def matchesDurationPattern (tok : String) : Bool :=
  match tok.data.getLast? with
  | none => false
  | some u =>
    decide (u = 's' ∨ u = 'm' ∨ u = 'h')
      && decide (tok.data.dropLast ≠ [])
      && tok.data.dropLast.all Char.isDigit

/-- Python dict assignment for the username-keyed mute table. -/
def strDictSet (d : List (String × MuteInfo)) (k : String) (v : MuteInfo) :
    List (String × MuteInfo) :=
  if d.any (fun p => p.1 == k) then
    d.map (fun p => if p.1 == k then (k, v) else p)
  else d ++ [(k, v)]

/-- Embedded from `Commands.admin_action_mute`
(server/handler/admin_commands.py:172-227), after the target-online and
arity checks: validate the duration token; on failure send one
`ADMIN_MSG` "Invalid duration..." and leave the mute table unchanged; on
success install `{"until": now + seconds, "warned": False}`, send the
`ADMIN_MUTE` frame carrying the numeric amount, and broadcast the
announcement.  Result: `(new mute table, (flag, message) frames sent)`. -/
def muteAction (now : ℚ) (table : List (String × MuteInfo))
    (target mutedBy : String) (tok : String) :
    List (String × MuteInfo) × List (String × String) :=
  let d := tok.data.map Char.toLower
  match parseDuration tok with
  | none => (table, [("ADMIN_MSG", "Invalid duration. Use 10s, 2m, or 1h.")])
  | some secs =>
    (strDictSet table target ⟨now + (secs : ℚ), false⟩,
     [("ADMIN_MUTE", String.mk d.dropLast),
      ("", "'" ++ target ++ "' has been muted by [ADMIN] " ++ mutedBy
           ++ " for " ++ String.mk d ++ ".")])

/-! ## Ban / unban (server/handler/admin_commands.py:108-170) -/

/-- Lookup in `db_user`: `none` if the user does not exist, otherwise the
record's optional `"role"` field. -/
def userRole (db : List (String × Option String)) (u : String) :
    Option (Option String) :=
  (db.find? (fun p => p.1 == u)).map Prod.snd

/-- Embedded from `Commands.admin_action_ban`
(server/handler/admin_commands.py:108-141), projected to the ban set:
abort when the target does not exist or is an admin, otherwise
`self.server.db_bans.add(target_name)`.  (The disconnect of an online
target and the broadcasts do not touch the ban set.) -/
def banAction (dbUser : List (String × Option String)) (bans : Finset String)
    (target : String) : Finset String :=
  match userRole dbUser target with
  | none => bans
  | some r => if r = some "admin" then bans else insert target bans

/-- Embedded from `Commands.admin_action_unban`
(server/handler/admin_commands.py:143-170), projected to the ban set:
abort when the target does not exist or is not banned, otherwise
`self.server.db_bans.remove(target_name)`. -/
def unbanAction (dbUser : List (String × Option String)) (bans : Finset String)
    (target : String) : Finset String :=
  match userRole dbUser target with
  | none => bans
  | some _ => if target ∈ bans then bans.erase target else bans

/-! ## Rate limiting (server/core/broadcaster.py:93-114) -/

/-- Embedded from the drop loop of `Broadcaster.check_rate_limit`:

```python
while user_history and now - user_history[0] > interval:
    user_history.popleft()
```

with `interval = 10`. -/
def dropOld (now : ℚ) (hist : List ℚ) : List ℚ :=
  hist.dropWhile (fun t => decide (now - t > 10))

/-- Embedded from `Broadcaster.check_rate_limit`
(server/core/broadcaster.py:93-114) with `interval = 10`,
`max_messages = 5`.  Result: `(allowed, new FIFO, number of ADMIN_MSG
rate-limit notices sent)`. -/
def checkRateLimit (now : ℚ) (hist : List ℚ) : Bool × List ℚ × ℕ :=
  let kept := dropOld now hist
  if 5 ≤ kept.length then (false, kept, 1)
  else (true, kept ++ [now], 0)

/-- Run `check_rate_limit` over a sequence of call timestamps, threading
the per-connection FIFO; record `(allowed, notices)` per call. -/
def rlRun : List ℚ → List ℚ → List (Bool × ℕ)
  | _, [] => []
  | hist, c :: cs =>
    ((checkRateLimit c hist).1, (checkRateLimit c hist).2.2)
      :: rlRun (checkRateLimit c hist).2.1 cs

/-- The timestamps of the allowed calls of a run. -/
def rlAllowed : List ℚ → List ℚ → List ℚ
  | _, [] => []
  | hist, c :: cs =>
    if (checkRateLimit c hist).1 then c :: rlAllowed (checkRateLimit c hist).2.1 cs
    else rlAllowed (checkRateLimit c hist).2.1 cs

/-- Modelled from the spec's words (claim C4): a call is allowed iff
fewer than `max = 5` previously allowed timestamps lie within the
preceding `interval = 10` seconds; the comparison side of the
refinement.  The first argument accumulates the allowed timestamps. -/
def rlSpecRun : List ℚ → List ℚ → List Bool
  | _, [] => []
  | allowed, c :: cs =>
    decide ((allowed.filter (fun t => decide (c - t ≤ 10))).length < 5)
      :: rlSpecRun
        (if (allowed.filter (fun t => decide (c - t ≤ 10))).length < 5 then allowed ++ [c]
         else allowed) cs

/-- Membership of `t` in the closed sliding window `[a, a + 10]`. -/
def inWin (a t : ℚ) : Bool :=
  decide (a ≤ t) && decide (t ≤ a + 10)

/-! ## Theorems -/

/-- **C1.** The repository's own client sends its credential frame as
JSON (`client/client.py:39-44`), but `Server.verify_user` only
understands the legacy `username::password` format: for the exact JSON
frame of the sample admin account it returns `AUTH_FAILED` no matter
what the user database contains and no matter what the digest check
says, and the accept path then closes the socket without sending any
envelope — neither `AUTH_OK` nor a specific failure flag.  This
contradicts the claimed classification (JSON parsing with
`AUTH_INVALID`/`AUTH_BAN`/`AUTH_DENIED`/`AUTH_OK`). -/
theorem verify_user_rejects_client_json_credentials :
    ∀ (db : List (String × String)) (checkpw : String → String → Bool),
      verifyUser db checkpw clientCredJson = .ok (none, some "AUTH_FAILED")
      ∧ acceptAndHandle ["127.0.0.1"] db checkpw "127.0.0.1" clientCredJson
          = .ok (none, []) := by
  intro db checkpw
  exact ⟨rfl, rfl⟩

/-- **C10.** A credential frame containing the separator `::` more than
once — here `"a::b::c"` — makes the two-variable unpacking in
`verify_user` raise `ValueError`; that exception is caught neither by
the per-connection handler (only `timeout` and `OSError`) nor by the
accept loop (only `KeyboardInterrupt`), so a single such frame escapes
the loop and no further connection is accepted: in a trace with a valid
login before and after the malformed frame, only the first login is
admitted and the loop ends with the uncaught `ValueError`. -/
theorem malformed_credentials_crash_accept_loop :
    verifyUser [("a", "h")] (fun _ _ => true) "a::b::c" = .error .valueErr
    ∧ handledByAcceptHandler .valueErr = false
    ∧ handledByAcceptLoop .valueErr = false
    ∧ acceptLoop ["ip"] [("a", "h")] (fun _ _ => true)
        [("ip", "a::h"), ("ip", "a::b::c"), ("ip", "a::h")]
      = (["a"], some .valueErr) :=
  ⟨rfl, rfl, rfl, rfl⟩

/-- **C2.** The legacy `Server.broadcast` never consults its
`exclude_socket` parameter, contradicting its own docstring ("except the
excluded one"): with clients `{1: A, 2: B}` and `exclude_socket = 1`,
socket 1 still receives the message.  The current-generation
`Broadcaster.broadcast_message` does honour the skip: with the same
registry and `skip_socket = 1`, only socket 2 receives. -/
theorem broadcast_ignores_exclude_socket :
    legacyBroadcast [(1, "A"), (2, "B")] "hi" (some 1) = [(1, "hi"), (2, "hi")]
    ∧ sendTargets (broadcastMessage [1, 2] (some 1) "" "hi" "A") = [2] :=
  ⟨rfl, rfl⟩

/-- **C3.** A zero-length read (the peer closed the connection) reaches
`process_client_message` as empty data and is treated as an ignorable
frame: the function returns `True` and the session loops, with the
client never removed — it does not transition to `REMOVING` as the
specification requires.  `ConnectionResetError` and `BrokenPipeError`
do remove the client and exit the loop. -/
theorem zero_length_read_is_ignored :
    processClientMessage (.recvData "") "bob" = (true, false)
    ∧ processClientMessage .connReset "bob" = (false, true)
    ∧ processClientMessage .brokenPipe "bob" = (false, true) :=
  ⟨rfl, rfl, rfl⟩

/-- **C7 (counterexample).** Admission never checks whether the username
is already bound: admitting sockets 1 and 2 both under `"u"` leaves two
live registry entries bound to `"u"` — invariant I2 fails and no
`AUTH_DENIED` rejection happens. -/
theorem duplicate_login_both_admitted :
    ((admitClient (admitClient [] 1 "u") 2 "u").filter (fun p => p.2 == "u")).length
      = 2 :=
  rfl

/-- **C7 (amended).** `handle_client` admits unconditionally: admitting
a fresh socket under username `u` always adds one more registry entry
bound to `u`, whatever bindings already exist — duplicate logins are
inserted, not rejected. -/
theorem admit_inserts_unconditionally (clients : List (Nat × String)) (sock : Nat)
    (u : String) (hfresh : ∀ p ∈ clients, p.1 ≠ sock) :
    ((admitClient clients sock u).filter (fun p => p.2 == u)).length
      = ((clients.filter (fun p => p.2 == u)).length) + 1 := by
  unfold admitClient dictSet
  have hany : clients.any (fun p => p.1 == sock) = false := by
    simp only [List.any_eq_false]
    intro p hp
    simpa using hfresh p hp
  rw [hany]
  simp [List.filter_append]

/-- Witness for `admit_inserts_unconditionally` at a concrete registry. -/
theorem admit_inserts_unconditionally_witness :
    ((admitClient [(1, "u")] 2 "u").filter (fun p => p.2 == "u")).length
      = (([((1 : Nat), "u")].filter (fun p => p.2 == "u")).length) + 1 :=
  admit_inserts_unconditionally [(1, "u")] 2 "u" (by decide)

/-- **C8 (counterexample).** `ban(u); unban(u)` does not restore every
initial ban set: when `u` is already banned, `set.add` is a no-op, and
the subsequent `unban` removes `u`, leaving a strictly smaller set. -/
theorem ban_unban_not_inverse_on_banned_user :
    unbanAction [("u", none)] (banAction [("u", none)] {"u"} "u") "u"
      ≠ ({"u"} : Finset String) := by
  decide

/-- **C8 (amended).** For a known, non-admin user `u` that is *not*
already in the initial ban set, `ban(u); unban(u)` restores the ban set
to its initial value. -/
theorem ban_unban_restores (dbUser : List (String × Option String))
    (bans : Finset String) (u : String) (r : Option String)
    (hrole : userRole dbUser u = some r) (hadmin : r ≠ some "admin")
    (hnotbanned : u ∉ bans) :
    unbanAction dbUser (banAction dbUser bans u) u = bans := by
  have hban : banAction dbUser bans u = insert u bans := by
    unfold banAction
    rw [hrole]
    simp [hadmin]
  rw [hban]
  unfold unbanAction
  rw [hrole]
  simp [Finset.mem_insert_self, Finset.erase_insert hnotbanned]

/-- Witness for `ban_unban_restores` at a concrete database and ban set. -/
theorem ban_unban_restores_witness :
    unbanAction [("u", some "user")] (banAction [("u", some "user")] ∅ "u") "u"
      = (∅ : Finset String) :=
  ban_unban_restores [("u", some "user")] ∅ "u" (some "user") rfl (by decide)
    (Finset.not_mem_empty "u")

/-- **C9 (counterexample).** The duration token `"10S"` does not match
the claimed pattern `^[0-9]+[smh]$` (the suffix letter is uppercase),
yet `admin_action_mute` lowercases the token first and accepts it as 10
seconds. -/
theorem uppercase_duration_accepted :
    parseDuration "10S" = some 10 ∧ matchesDurationPattern "10S" = false :=
  ⟨rfl, rfl⟩

/-- `Option.isSome` of a conditional `some`. -/
theorem isSome_ite (P : Prop) [Decidable P] (v : ℕ) :
    (if P then some v else none).isSome = decide P := by
  by_cases hP : P <;> simp [hP]

/-- **C9 (amended).** A `/mute` duration token is accepted exactly when
its ASCII-lowercased form matches `^[0-9]+[smh]$` (the suffix letter is
case-insensitive, the digit prefix is required); every rejected token
yields the single `ADMIN_MSG` "Invalid duration. Use 10s, 2m, or 1h."
and leaves the mute table unchanged, and every accepted token installs
`{"until": now + seconds, "warned": False}` for the target. -/
theorem duration_accepted_iff_lowered_pattern (tok : String) (now : ℚ)
    (table : List (String × MuteInfo)) (target mutedBy : String) :
    ((parseDuration tok).isSome
        = matchesDurationPattern (String.mk (tok.data.map Char.toLower)))
    ∧ (parseDuration tok = none →
        muteAction now table target mutedBy tok
          = (table, [("ADMIN_MSG", "Invalid duration. Use 10s, 2m, or 1h.")]))
    ∧ (∀ secs, parseDuration tok = some secs →
        (muteAction now table target mutedBy tok).1
          = strDictSet table target ⟨now + (secs : ℚ), false⟩) := by
  refine ⟨?_, ?_, ?_⟩
  · unfold parseDuration matchesDurationPattern
    have hdata : (String.mk (tok.data.map Char.toLower)).data
        = tok.data.map Char.toLower := rfl
    rw [hdata]
    cases hcase : (tok.data.map Char.toLower).getLast? with
    | none =>
      simp only [hcase]
      rfl
    | some u =>
      simp only [hcase]
      rw [isSome_ite, Bool.eq_iff_iff]
      simp [List.all_eq_true, and_assoc]
  · intro h
    unfold muteAction
    rw [h]
  · intro secs h
    unfold muteAction
    rw [h]

/-- Witness for `duration_accepted_iff_lowered_pattern` at concrete
tokens. -/
theorem duration_accepted_iff_lowered_pattern_witness :
    ((parseDuration "10s").isSome
        = matchesDurationPattern (String.mk ("10s".data.map Char.toLower)))
    ∧ muteAction 0 [] "bob" "admin" "xx"
        = ([], [("ADMIN_MSG", "Invalid duration. Use 10s, 2m, or 1h.")]) :=
  ⟨(duration_accepted_iff_lowered_pattern "10s" 0 [] "bob" "admin").1,
   (duration_accepted_iff_lowered_pattern "xx" 0 [] "bob" "admin").2.1 rfl⟩

/-- **C6 (counterexample).** In `broadcast_message` the append to the
message log happens *after* the fan-out iteration, not before it: for a
user chat envelope broadcast to clients `{1, 2}`, the `logAppend` effect
occurs at a later position than the send to client 2. -/
theorem log_append_not_before_fanout :
    (broadcastMessage [1, 2] none "" "hi" "A").indexOf
        (BCAction.logAppend "" "A" "hi")
      > (broadcastMessage [1, 2] none "" "hi" "A").indexOf
        (BCAction.send 2 "" "A" "hi") := by
  decide

/-- **C6 (amended).** An envelope is appended to the in-memory message
log iff it is a user chat message (empty `flag`, non-empty `sender`) —
system and admin envelopes are never appended — and when the append
happens it is the *last* effect of `broadcast_message`, i.e. it comes
after the whole fan-out iteration, not before it. -/
theorem log_append_iff_user_chat (clients : List Nat) (skipSocket : Option Nat)
    (flag message sender : String) :
    (BCAction.logAppend flag sender message
        ∈ broadcastMessage clients skipSocket flag message sender
      ↔ (flag = "" ∧ sender ≠ ""))
    ∧ (∀ i, (broadcastMessage clients skipSocket flag message sender).get? i
          = some (BCAction.logAppend flag sender message) →
        i + 1 = (broadcastMessage clients skipSocket flag message sender).length) := by
  constructor
  · unfold broadcastMessage
    by_cases h : flag = "" ∧ sender ≠ "" <;> simp [h]
  · intro i hi
    unfold broadcastMessage at hi ⊢
    by_cases h : flag = "" ∧ sender ≠ ""
    · rw [if_pos h] at hi ⊢
      set sends := (clients.filter (fun c => decide (some c ≠ skipSocket))).map
        (fun c => BCAction.send c flag sender message) with hsends
      rcases lt_or_ge i sends.length with hlt | hge
      · exfalso
        rw [List.get?_append hlt] at hi
        have : BCAction.logAppend flag sender message ∈ sends := List.get?_mem hi
        simp [hsends] at this
      · rw [List.get?_append_right hge] at hi
        have hlen : i - sends.length = 0 := by
          by_contra hne
          rcases Nat.exists_eq_succ_of_ne_zero hne with ⟨k, hk⟩
          rw [hk] at hi
          simp at hi
        have : i = sends.length := le_antisymm (by omega) hge
        simp [this, List.length_append]
    · rw [if_neg h] at hi ⊢
      exfalso
      have : BCAction.logAppend flag sender message
          ∈ (clients.filter (fun c => decide (some c ≠ skipSocket))).map
            (fun c => BCAction.send c flag sender message) ++ [] := List.get?_mem hi
      simp at this

/-- Witness for `log_append_iff_user_chat` at a concrete broadcast. -/
theorem log_append_iff_user_chat_witness :
    (BCAction.logAppend "" "A" "hi" ∈ broadcastMessage [1] none "" "hi" "A")
    ∧ (1 : ℕ) + 1 = (broadcastMessage [1] none "" "hi" "A").length :=
  ⟨(log_append_iff_user_chat [1] none "" "hi" "A").1.mpr ⟨rfl, by decide⟩,
   (log_append_iff_user_chat [1] none "" "hi" "A").2 1 rfl⟩

/-- **C5.** The mute check: a user absent from the mute table is
allowed; a user whose mute expired (`now ≥ until`) has the entry deleted
and is allowed; a still-muted user is denied, receiving exactly one
`ADMIN_MSG` "You are muted for X more second(s)." on the first denied
attempt (`warned` flips from `false` to `true`) and no message on any
further denied attempt of the same mute. -/
theorem check_mute_claim (info : MuteInfo) (now now2 : ℚ) :
    (checkMute none now = (true, none, []))
    ∧ (info.muteUntil ≤ now → checkMute (some info) now = (true, none, []))
    ∧ (now < info.muteUntil → info.warned = false →
        checkMute (some info) now
          = (false, some ⟨info.muteUntil, true⟩,
             [muteWarning ⌊info.muteUntil - now⌋]))
    ∧ (now < info.muteUntil → info.warned = true →
        checkMute (some info) now = (false, some info, []))
    ∧ (now < info.muteUntil → now2 < info.muteUntil →
        (checkMute ((checkMute (some ⟨info.muteUntil, false⟩) now).2.1) now2).1 = false
        ∧ (checkMute ((checkMute (some ⟨info.muteUntil, false⟩) now).2.1) now2).2.2 = []) := by
  refine ⟨rfl, ?_, ?_, ?_, ?_⟩
  · intro h
    simp [checkMute, not_lt.mpr h]
  · intro h hw
    simp [checkMute, h, hw]
  · intro h hw
    simp [checkMute, h, hw]
  · intro h1 h2
    simp [checkMute, h1, h2]

/-- Witness for `check_mute_claim` at a concrete mute entry. -/
theorem check_mute_claim_witness :
    (checkMute (some ⟨10, false⟩) 3
        = (false, some ⟨10, true⟩, [muteWarning ⌊(10 : ℚ) - 3⌋]))
    ∧ checkMute (some ⟨10, true⟩) 12 = (true, none, []) :=
  ⟨(check_mute_claim ⟨10, false⟩ 3 0).2.2.1 (by norm_num) rfl,
   (check_mute_claim ⟨10, true⟩ 12 0).2.1 (by norm_num)⟩

/-! ### Rate-limit lemmas (claim C4) -/

/-- The result of a denied `check_rate_limit` call. -/
theorem checkRateLimit_denied (now : ℚ) (hist : List ℚ)
    (h : 5 ≤ (dropOld now hist).length) :
    checkRateLimit now hist = (false, dropOld now hist, 1) := by
  unfold checkRateLimit
  simp [h]

/-- The result of an allowed `check_rate_limit` call. -/
theorem checkRateLimit_allowed (now : ℚ) (hist : List ℚ)
    (h : (dropOld now hist).length < 5) :
    checkRateLimit now hist = (true, dropOld now hist ++ [now], 0) := by
  unfold checkRateLimit
  simp [Nat.not_le.mpr h]

/-- Unfolding equation for `rlRun` on a nonempty call list. -/
theorem rlRun_cons (hist : List ℚ) (c : ℚ) (cs : List ℚ) :
    rlRun hist (c :: cs)
      = ((checkRateLimit c hist).1, (checkRateLimit c hist).2.2)
          :: rlRun (checkRateLimit c hist).2.1 cs :=
  rfl

/-- Unfolding equation for `rlAllowed` on a nonempty call list. -/
theorem rlAllowed_cons (hist : List ℚ) (c : ℚ) (cs : List ℚ) :
    rlAllowed hist (c :: cs)
      = if (checkRateLimit c hist).1 then c :: rlAllowed (checkRateLimit c hist).2.1 cs
        else rlAllowed (checkRateLimit c hist).2.1 cs :=
  rfl

/-- Unfolding equation for `rlSpecRun` on a nonempty call list. -/
theorem rlSpecRun_cons (A : List ℚ) (c : ℚ) (cs : List ℚ) :
    rlSpecRun A (c :: cs)
      = decide ((A.filter (fun t => decide (c - t ≤ 10))).length < 5)
          :: rlSpecRun
            (if (A.filter (fun t => decide (c - t ≤ 10))).length < 5 then A ++ [c]
             else A) cs :=
  rfl

/-- On a non-decreasing history, the head-drop loop removes exactly the
timestamps older than the window: `dropOld` is a filter. -/
theorem dropOld_eq_filter (c : ℚ) :
    ∀ (l : List ℚ), l.Pairwise (· ≤ ·) →
      dropOld c l = l.filter (fun t => decide (c - t ≤ 10)) := by
  intro l
  induction l with
  | nil => intro _; rfl
  | cons a l ih =>
    intro hl
    rw [List.pairwise_cons] at hl
    by_cases hax : c - a > 10
    · have h1 : decide (c - a > 10) = true := decide_eq_true hax
      have h2 : decide (c - a ≤ 10) = false := by
        rw [decide_eq_false_iff_not]
        linarith
      unfold dropOld at ih ⊢
      rw [List.dropWhile_cons, List.filter_cons, h1, h2]
      simpa using ih hl.2
    · push_neg at hax
      have h1 : decide (c - a > 10) = false := by
        rw [decide_eq_false_iff_not]
        exact not_lt.mpr hax
      have h2 : decide (c - a ≤ 10) = true := decide_eq_true hax
      have hall : l.filter (fun t => decide (c - t ≤ 10)) = l := by
        rw [List.filter_eq_self]
        intro b hb
        have : a ≤ b := hl.1 b hb
        simp only [decide_eq_true_eq]
        linarith
      unfold dropOld
      rw [List.dropWhile_cons, List.filter_cons, h1, h2, hall]
      simp

/-- Narrowing the window keeps a filtered history filtered: filtering
for the window at `c` and then at a later `c'` is filtering at `c'`. -/
theorem filter_window_absorb {c cn : ℚ} (h : c ≤ cn) (A : List ℚ) :
    (A.filter (fun t => decide (c - t ≤ 10))).filter (fun t => decide (cn - t ≤ 10))
      = A.filter (fun t => decide (cn - t ≤ 10)) := by
  rw [List.filter_filter]
  congr 1
  funext t
  by_cases ht : cn - t ≤ 10
  · have hct : c - t ≤ 10 := by linarith
    simp [ht, hct]
  · simp [ht]

/-- Dropping entries older than `c - 10` cannot remove anything from a
window `[a, a + 10]` that still contains `c`. -/
theorem filter_inWin_dropOld (a c : ℚ) (hc : c ≤ a + 10) (l : List ℚ) :
    (dropOld c l).filter (inWin a) = l.filter (inWin a) := by
  have hsplit : l.takeWhile (fun t : ℚ => decide (c - t > 10)) ++ dropOld c l = l :=
    List.takeWhile_append_dropWhile (fun t : ℚ => decide (c - t > 10)) l
  conv_rhs => rw [← hsplit]
  rw [List.filter_append]
  have hnil : (l.takeWhile (fun t : ℚ => decide (c - t > 10))).filter (inWin a) = [] := by
    rw [List.filter_eq_nil_iff]
    intro t ht
    have hp := List.mem_takeWhile_imp ht
    simp only [decide_eq_true_eq] at hp
    have : t < a := by linarith
    simp [inWin, not_le.mpr this]
  rw [hnil, List.nil_append]

/-- Every allowed timestamp of a run is one of the call timestamps. -/
theorem rlAllowed_subset :
    ∀ (calls hist : List ℚ) (t : ℚ), t ∈ rlAllowed hist calls → t ∈ calls := by
  intro calls
  induction calls with
  | nil =>
    intro hist t h
    simp [rlAllowed] at h
  | cons c cs ih =>
    intro hist t h
    rw [rlAllowed_cons] at h
    by_cases hr : (checkRateLimit c hist).1 = true
    · rw [if_pos hr] at h
      rcases List.mem_cons.mp h with rfl | h2
      · exact List.mem_cons_self t cs
      · exact List.mem_cons_of_mem c (ih _ t h2)
    · rw [if_neg hr] at h
      exact List.mem_cons_of_mem c (ih _ t h)

/-- Invariant for the sliding-window bound: relative to any window
`[a, a + 10]`, the retained history plus the future allowed calls never
exceed `max 5 (retained history in the window)`. -/
theorem rl_window_aux (calls : List ℚ) :
    ∀ (hist : List ℚ) (a : ℚ), calls.Pairwise (· ≤ ·) →
      (hist.filter (inWin a)).length + ((rlAllowed hist calls).filter (inWin a)).length
        ≤ max 5 (hist.filter (inWin a)).length := by
  induction calls with
  | nil =>
    intro hist a _
    simp only [rlAllowed, List.filter_nil, List.length_nil, Nat.add_zero]
    exact le_max_right 5 (hist.filter (inWin a)).length
  | cons c cs ih =>
    intro hist a hp
    rw [List.pairwise_cons] at hp
    obtain ⟨hcle, hcs⟩ := hp
    by_cases hwin : c ≤ a + 10
    · have hkeep : ((dropOld c hist).filter (inWin a)).length
          = (hist.filter (inWin a)).length := by
        rw [filter_inWin_dropOld a c hwin hist]
      by_cases hlen : 5 ≤ (dropOld c hist).length
      · have hstep : rlAllowed hist (c :: cs) = rlAllowed (dropOld c hist) cs := by
          rw [rlAllowed_cons, checkRateLimit_denied c hist hlen]
          simp
        rw [hstep]
        have hih := ih (dropOld c hist) a hcs
        rw [hkeep] at hih
        exact hih
      · push_neg at hlen
        have hstep : rlAllowed hist (c :: cs)
            = c :: rlAllowed (dropOld c hist ++ [c]) cs := by
          rw [rlAllowed_cons, checkRateLimit_allowed c hist hlen]
          simp
        rw [hstep, List.filter_cons]
        have hih := ih (dropOld c hist ++ [c]) a hcs
        rw [List.filter_append, List.length_append, hkeep,
            List.filter_cons, List.filter_nil] at hih
        have hXle : (hist.filter (inWin a)).length ≤ 4 := by
          have h1 : ((dropOld c hist).filter (inWin a)).length
              ≤ (dropOld c hist).length := List.length_filter_le _ _
          omega
        cases hcw : inWin a c with
        | false =>
          rw [hcw] at hih
          rw [if_neg Bool.false_ne_true] at hih ⊢
          simp only [List.length_nil, Nat.add_zero] at hih
          exact hih
        | true =>
          rw [hcw] at hih
          rw [if_pos rfl] at hih ⊢
          simp only [List.length_singleton, List.length_cons] at hih ⊢
          omega
    · push_neg at hwin
      have hnil : (rlAllowed hist (c :: cs)).filter (inWin a) = [] := by
        rw [List.filter_eq_nil_iff]
        intro t ht
        have htc : t ∈ c :: cs := rlAllowed_subset (c :: cs) hist t ht
        have hta : a + 10 < t := by
          rcases List.mem_cons.mp htc with rfl | htcs
          · exact hwin
          · exact lt_of_lt_of_le hwin (hcle t htcs)
        simp [inWin, not_le.mpr hta]
      rw [hnil]
      simp only [List.length_nil, Nat.add_zero]
      exact le_max_right 5 (hist.filter (inWin a)).length

/-- Refinement invariant: as long as the FIFO is, from the viewpoint of
every future call, the allowed-timestamp list filtered to that call's
window, the code's verdicts coincide with the specification's
"fewer than 5 allowed timestamps in the preceding 10 seconds". -/
theorem rl_refine_aux :
    ∀ (calls A hist : List ℚ),
      A.Pairwise (· ≤ ·) →
      (∀ x ∈ A, ∀ y ∈ calls, x ≤ y) →
      calls.Pairwise (· ≤ ·) →
      (∀ c ∈ calls, dropOld c hist = A.filter (fun t => decide (c - t ≤ 10))) →
      (rlRun hist calls).map Prod.fst = rlSpecRun A calls := by
  intro calls
  induction calls with
  | nil => intro A hist _ _ _ _; rfl
  | cons c cs ih =>
    intro A hist hA hAc hcs H
    rw [List.pairwise_cons] at hcs
    obtain ⟨hcle, hcs⟩ := hcs
    have hkept : dropOld c hist = A.filter (fun t => decide (c - t ≤ 10)) :=
      H c (List.mem_cons_self c cs)
    have hAle : ∀ x ∈ A, x ≤ c := fun x hx => hAc x hx c (List.mem_cons_self c cs)
    have hfilterA : (A.filter (fun t => decide (c - t ≤ 10))).Pairwise (· ≤ ·) :=
      List.Pairwise.sublist (List.filter_sublist A) hA
    by_cases hlen : 5 ≤ (dropOld c hist).length
    · have hspec : ¬ (A.filter (fun t => decide (c - t ≤ 10))).length < 5 := by
        rw [← hkept]
        omega
      have hcode : rlRun hist (c :: cs)
          = (false, 1) :: rlRun (dropOld c hist) cs := by
        rw [rlRun_cons, checkRateLimit_denied c hist hlen]
      rw [hcode, rlSpecRun_cons, List.map_cons, if_neg hspec]
      have hok : decide ((A.filter (fun t => decide (c - t ≤ 10))).length < 5) = false := by
        simpa using hspec
      rw [hok]
      congr 1
      apply ih A (dropOld c hist) hA
        (fun x hx y hy => hAc x hx y (List.mem_cons_of_mem c hy)) hcs
      intro cn hcn
      have hccn : c ≤ cn := hcle cn hcn
      rw [hkept, dropOld_eq_filter cn _ hfilterA, filter_window_absorb hccn]
    · push_neg at hlen
      have hspec : (A.filter (fun t => decide (c - t ≤ 10))).length < 5 := by
        rw [← hkept]
        exact hlen
      have hcode : rlRun hist (c :: cs)
          = (true, 0) :: rlRun (dropOld c hist ++ [c]) cs := by
        rw [rlRun_cons, checkRateLimit_allowed c hist hlen]
      rw [hcode, rlSpecRun_cons, List.map_cons, if_pos hspec]
      have hok : decide ((A.filter (fun t => decide (c - t ≤ 10))).length < 5) = true := by
        simpa using hspec
      rw [hok]
      congr 1
      have hsorted : (A.filter (fun t => decide (c - t ≤ 10)) ++ [c]).Pairwise (· ≤ ·) := by
        rw [List.pairwise_append]
        refine ⟨hfilterA, List.pairwise_singleton _ c, ?_⟩
        intro x hx b hb
        rw [List.mem_singleton] at hb
        subst hb
        exact hAle x (List.mem_of_mem_filter hx)
      apply ih (A ++ [c]) (dropOld c hist ++ [c]) ?_ ?_ hcs ?_
      · rw [List.pairwise_append]
        refine ⟨hA, List.pairwise_singleton _ c, ?_⟩
        intro x hx b hb
        rw [List.mem_singleton] at hb
        subst hb
        exact hAle x hx
      · intro x hx y hy
        rcases List.mem_append.mp hx with hx1 | hx2
        · exact hAc x hx1 y (List.mem_cons_of_mem c hy)
        · rw [List.mem_singleton] at hx2
          subst hx2
          exact hcle y hy
      · intro cn hcn
        have hccn : c ≤ cn := hcle cn hcn
        have hc10 : decide (cn - c ≤ 10) = decide (cn - c ≤ 10) := rfl
        rw [hkept, dropOld_eq_filter cn _ hsorted, List.filter_append,
            filter_window_absorb hccn, ← List.filter_append]

/-- Each denied rate-limit call emits exactly one notice; each allowed
call emits none. -/
theorem rl_notices :
    ∀ (calls hist : List ℚ),
      (rlRun hist calls).map Prod.snd
        = (rlRun hist calls).map (fun p => if p.1 then 0 else 1) := by
  intro calls
  induction calls with
  | nil => intro hist; rfl
  | cons c cs ih =>
    intro hist
    by_cases hlen : 5 ≤ (dropOld c hist).length
    · rw [rlRun_cons, checkRateLimit_denied c hist hlen, List.map_cons, List.map_cons,
          ih (dropOld c hist)]
      rfl
    · push_neg at hlen
      rw [rlRun_cons, checkRateLimit_allowed c hist hlen, List.map_cons, List.map_cons,
          ih (dropOld c hist ++ [c])]
      rfl

/-- **C4.** For a single connection calling `check_rate_limit` at
non-decreasing timestamps (interval 10 s, max 5), starting from an empty
FIFO:

* the per-call verdicts coincide with the specification "allow iff fewer
  than 5 previously allowed timestamps lie within the preceding
  10-second window" (the FIFO with head-drops and append-on-allow
  refines the window count);
* within **any** sliding window `[a, a + 10]`, at most 5 calls are
  allowed, so a connection succeeds in at most 5 chat broadcasts per
  window (invariant I7);
* a denied call sends exactly one `ADMIN_MSG` rate-limit notice and an
  allowed call sends none. -/
theorem rate_limit_claim (calls : List ℚ) (h : calls.Pairwise (· ≤ ·)) :
    ((rlRun [] calls).map Prod.fst = rlSpecRun [] calls)
    ∧ (∀ a : ℚ, ((rlAllowed [] calls).filter (inWin a)).length ≤ 5)
    ∧ ((rlRun [] calls).map Prod.snd
        = (rlRun [] calls).map (fun p => if p.1 then 0 else 1)) := by
  refine ⟨?_, ?_, rl_notices calls []⟩
  · apply rl_refine_aux calls [] [] List.Pairwise.nil (by simp) h
    intro c _
    rfl
  · intro a
    have := rl_window_aux calls [] a h
    simpa using this

/-- Witness for `rate_limit_claim` on a concrete monotone trace. -/
theorem rate_limit_claim_witness :
    List.Pairwise (· ≤ ·) ([0, 1, 2, 3, 4, 5, 11] : List ℚ)
    ∧ ((rlAllowed [] ([0, 1, 2, 3, 4, 5, 11] : List ℚ)).filter (inWin 0)).length ≤ 5 :=
  ⟨by decide, (rate_limit_claim [0, 1, 2, 3, 4, 5, 11] (by decide)).2.1 0⟩

end Sochet

